import Mathlib

/-!
Shallow embedding of the string-to-float core in
`src/atof/algorithm/correct.rs` of rust-lexical, together with proofs
settling the frozen specification claims.

Machine integers are modelled as `Nat`/`Int` with explicit wrapping
where the Rust release semantics wraps:
`wrap32` models two-complement `i32` arithmetic, `wrap64` models `i64`,
`toI64` models the `u64 -> i64` reinterpreting cast.
-/

namespace Lexical

/-- Two-complement wrap of an integer into the signed 32-bit range,
the Rust release-mode behaviour of `i32` arithmetic. -/
def wrap32 (x : Int) : Int :=
  (x + 2 ^ 31) % 2 ^ 32 - 2 ^ 31

/-- Two-complement wrap of an integer into the signed 64-bit range,
the Rust release-mode behaviour of `i64` arithmetic. -/
def wrap64 (x : Int) : Int :=
  (x + 2 ^ 63) % 2 ^ 64 - 2 ^ 63

/-- Reinterpreting cast of a `u64` value (a natural below `2 ^ 64`)
as an `i64`, the Rust `as` cast. -/
def toI64 (u : Nat) : Int :=
  if u < 2 ^ 63 then (u : Int) else (u : Int) - 2 ^ 64

/-- Embeds `usize_to_i32` from correct.rs: convert a count to `i32`,
saturating at `i32::max_value`. -/
def usize_to_i32 (truncated : Nat) : Int :=
  if truncated < 2147483647 then (truncated : Int) else 2147483647

/-- Embeds `normalize_exponent` from correct.rs: combine the literal
exponent with the dot shift.  The sentinel values `0x7FFFFFFF` and
`-0x80000000` pass through unchanged; otherwise the `i32` subtraction
`exponent - dot_shift` is performed (wrapping in release builds). -/
def normalize_exponent (exponent dot_shift : Int) : Int :=
  if exponent = 0x7FFFFFFF then 0x7FFFFFFF
  else if exponent = -0x80000000 then -0x80000000
  else wrap32 (exponent - dot_shift)

-- Sanity checks for the integer model.
example : wrap32 (2 ^ 31) = -(2 ^ 31) := by decide
example : wrap32 (2 ^ 31 - 1) = 2 ^ 31 - 1 := by decide
example : normalize_exponent 10 5 = 5 := by decide
example : normalize_exponent 0 5 = -5 := by decide
example : normalize_exponent 2147483647 5 = 2147483647 := by decide
example : normalize_exponent (-2147483648) 5 = -2147483648 := by decide

/-- One division loop of `normalize_mantissa` from correct.rs: while the
mantissa is at least `d` and divisible by `d`, divide by `d` and add `k`
to the exponent (an `i32` addition).  In the source this is a while loop;
here the recursion is driven by a fuel argument initialised to the
mantissa itself, which suffices because every iteration strictly
decreases the mantissa whenever `d` is at least 2 (the divisors used by
the source are `base ^ 4` and `base ^ 2` with base in [2, 36]). -/
def divLoopAux : Nat → Nat → Nat → Int → Int → Nat × Int
  | 0, _, m, e, _ => (m, e)
  | fuel + 1, d, m, e, k =>
    if d ≤ m ∧ m % d = 0 then
      divLoopAux fuel d (m / d) (wrap32 (e + k)) k
    else
      (m, e)

/-- Embeds `normalize_mantissa` from correct.rs: strip trailing factors
of the base from the mantissa, moving them into the exponent, first by
`base ^ 4`, then by `base ^ 2`, then a single check for `base`.
The squarings are `u64` multiplications, hence the `% 2 ^ 64`
(an identity for every base up to 36). -/
def normalize_mantissa (mantissa base : Nat) (exponent : Int) : Nat × Int :=
  let base2 := (base * base) % 2 ^ 64
  let base4 := (base2 * base2) % 2 ^ 64
  let p1 := divLoopAux mantissa base4 mantissa exponent 4
  let p2 := divLoopAux p1.1 base2 p1.1 p1.2 2
  if p2.1 % base = 0 then (p2.1 / base, wrap32 (p2.2 + 1)) else p2

-- The unit tests of correct.rs for normalize_mantissa.
example : normalize_mantissa 100 10 0 = (1, 2) := by decide
example : normalize_mantissa 101 10 0 = (101, 0) := by decide
example : normalize_mantissa 110 10 0 = (11, 1) := by decide
-- The zero mantissa is still divided once by the final base check.
example : normalize_mantissa 0 10 0 = (0, 1) := by decide
example : normalize_mantissa 0 10 1 = (0, 2) := by decide

/-- Modelled from the spec: the util collaborator `char_to_digit` is not
under src; per the spec a digit byte maps to its value in the radix
(decimal digits, then letters case-insensitively for values 10 to 35);
any other byte maps to a value at or above every radix. -/
def char_to_digit (c : Nat) : Nat :=
  if 48 ≤ c ∧ c ≤ 57 then c - 48
  else if 65 ≤ c ∧ c ≤ 90 then c - 55
  else if 97 ≤ c ∧ c ≤ 122 then c - 87
  else 255

/-- Modelled from the spec: the util collaborator `ltrim_char` is not
under src; it advances the buffer start past leading occurrences of the
given byte. -/
def ltrim_char (s : List Nat) (c : Nat) : List Nat :=
  match s with
  | [] => []
  | x :: xs => if x = c then ltrim_char xs c else x :: xs

/-- Modelled from the spec: the digit-accumulation collaborator
`atoi::checked` is not under src.  Per the spec it folds digits into the
accumulator with a checked multiply-add; once a fold would overflow the
64-bit accumulator the digit is not folded but is counted, and scanning
continues to the first non-digit.  Returns the accumulated value, the
count of digits not folded in, and the remaining buffer. -/
def atoi_checked (base : Nat) : Nat → List Nat → Nat × Nat × List Nat
  | v, [] => (v, 0, [])
  | v, c :: cs =>
    let d := char_to_digit c
    if d < base then
      if base * v + d < 2 ^ 64 then
        let r := atoi_checked base (base * v + d) cs
        (r.1, r.2.1, r.2.2)
      else
        let r := atoi_checked base v cs
        (r.1, r.2.1 + 1, r.2.2)
    else (v, 0, c :: cs)

/-- Embeds the digit-skipping while loop of `parse_mantissa` in
correct.rs (the truncated-integral branch): advance while the current
byte is a digit of the base. -/
def scanDigits (base : Nat) : List Nat → List Nat
  | [] => []
  | c :: cs => if char_to_digit c < base then scanDigits base cs else c :: cs

/-- Embeds `parse_mantissa` from correct.rs over a byte-list view of the
buffer.  Returns the mantissa, the dot shift, the number of bytes
consumed (the source returns the new buffer pointer; the distance from
the start is its only use), and the truncation flag.  The collaborators
`ltrim_char`, `atoi::checked` and `char_to_digit` are modelled from the
spec, see their doc comments. -/
def parse_mantissa (base : Nat) (s : List Nat) : Nat × Int × Nat × Bool :=
  let first := ltrim_char s 48
  let t1 := atoi_checked base 0 first
  let mantissa := t1.1
  let truncated := t1.2.1
  let f := t1.2.2
  match f with
  | c :: rest =>
    if c = 46 ∧ rest ≠ [] then
      if truncated = 0 then
        let tup :=
          if mantissa = 0 then atoi_checked base 0 (ltrim_char rest 48)
          else atoi_checked base mantissa rest
        let dot_shift := usize_to_i32 (rest.length - tup.2.2.length) - usize_to_i32 tup.2.1
        (tup.1, dot_shift, s.length - tup.2.2.length, decide (tup.2.1 ≠ 0))
      else
        let p := scanDigits base rest
        let dot_shift := usize_to_i32 (rest.length - p.length) - usize_to_i32 truncated
        (mantissa, dot_shift, s.length - p.length, true)
    else
      (mantissa, -usize_to_i32 truncated, s.length - f.length, decide (truncated ≠ 0))
  | [] =>
    (mantissa, -usize_to_i32 truncated, s.length - f.length, decide (truncated ≠ 0))

-- The byte string 1.2345 in ASCII.
example : parse_mantissa 10 [49, 46, 50, 51, 52, 53] = (12345, 4, 6, false) := by decide
-- 12.345 and 12345.6789, further unit tests of correct.rs.
example : parse_mantissa 10 [49, 50, 46, 51, 52, 53] = (12345, 3, 6, false) := by decide
-- 0.0000000000000000001: leading fractional zeros are skipped.
example :
    parse_mantissa 10
      (48 :: 46 :: (List.replicate 18 48 ++ [49])) = (1, 19, 21, false) := by decide
-- 1 followed by twenty zeros: the last zero cannot be folded in.
example :
    parse_mantissa 10 (49 :: List.replicate 20 48) =
      (10000000000000000000, -1, 21, true) := by decide

/-- The four zones of `pow2_to_exact` in correct.rs.  The float values
produced by the two scaling zones are powers-of-two multiples of the
mantissa (IEEE rounding applies only at the subnormal boundary); here
only the selected branch and the validity flag are embedded, which is
what the claims about this function quantify over. -/
inductive Pow2Branch
  | inf
  | zero
  | twostep
  | direct
deriving DecidableEq

/-- Embeds `pow2_to_exact` from correct.rs for a power-of-two base.
`pow2_exp` is log2 of the base; `minExp` and `maxExp` stand for the
collaborator query `F::exponent_limit(base)` (the float-layout module is
outside src), passed here as parameters.  The underflow threshold is
`minExp - 65 / pow2_exp`, a truncating `i32` division in the source.
Every branch reports the result as exact. -/
def pow2_to_exact (mantissa base : Nat) (pow2_exp exponent minExp maxExp : Int) :
    Pow2Branch × Bool :=
  let underflow_exp := minExp - 65 / pow2_exp
  if exponent > maxExp then (Pow2Branch.inf, true)
  else if exponent < underflow_exp then (Pow2Branch.zero, true)
  else if exponent < minExp then (Pow2Branch.twostep, true)
  else (Pow2Branch.direct, true)

-- Touch the unused base argument so the signature mirrors the source.
example : (pow2_to_exact 1 2 1 0 (-100) 100).1 = Pow2Branch.direct := by decide
example : (pow2_to_exact 1 4 2 (-133) (-100) 100).1 = Pow2Branch.zero := by decide
example : (pow2_to_exact 7 4 2 (-132) (-100) 100).1 = Pow2Branch.twostep := by decide
example : (pow2_to_exact 7 4 2 101 (-100) 100).1 = Pow2Branch.inf := by decide

/-- The outcomes of `to_exact` in correct.rs: the branch taken together
with the exactness flag.  `truncWould` is the early return when the
mantissa does not fit the significand, `identity` the zero-exponent
return, `powMul` the in-range exact multiply, `outOfRange` the final
refusal. -/
inductive ExactTag
  | truncWould
  | identity
  | powMul
  | outOfRange
deriving DecidableEq

/-- Embeds `to_exact` from correct.rs for a non-power-of-two base.
`S` stands for `F::SIGNIFICAND_SIZE` and `minExp`, `maxExp` for
`F::exponent_limit(base)`, collaborator constants of the float-layout
module outside src, passed as parameters. -/
def to_exact (mantissa S : Nat) (minExp maxExp exponent : Int) : ExactTag × Bool :=
  if mantissa >>> S ≠ 0 then (ExactTag.truncWould, false)
  else if exponent = 0 then (ExactTag.identity, true)
  else if minExp ≤ exponent ∧ exponent ≤ maxExp then (ExactTag.powMul, true)
  else (ExactTag.outOfRange, false)

example : (to_exact 4746067219335938 52 (-22) 22 (-9)).2 = false := by decide
example : (to_exact (2 ^ 52) 52 (-22) 22 0).2 = false := by decide
example : (to_exact (2 ^ 52 - 1) 52 (-22) 22 0).2 = true := by decide
example : (to_exact 12345 52 (-22) 22 23).2 = false := by decide

/-- The mathematical count of extra low-order fraction bits used by the
ambiguity test of the extended path, as described by the spec: the
fraction bits not representable in the target significand, increased
when the binary exponent is below the subnormal threshold.  `S` is the
significand size, `EB` the exponent bias, `exp` the binary exponent of
the extended float. -/
def extrabitsSpec (S EB exp : Int) : Int :=
  if exp < -(EB - S) - 63 then 63 - S + 1 + (-(EB - S) - 63) - exp
  else 63 - S

/-- Embeds `Errors::is_accurate` from correct.rs.  `S` stands for
`F::SIGNIFICAND_SIZE` and `EB` for `F::EXPONENT_BIAS` (collaborator
constants of the float module outside src); `count` is the accumulated
error count, `frac` and `exp` the fields of the extended float.  The
`i32` arithmetic, the `u32` cast, the `u64` shifts (whose shift amount
is masked modulo 64 in release builds) and the `u64` to `i64`
reinterpreting casts are modelled explicitly. -/
def is_accurate (S EB : Int) (count frac : Nat) (exp : Int) : Bool :=
  let bias := wrap32 (-(EB - S))
  let denormal_exp := wrap32 (bias - 63)
  let extrabitsI :=
    if exp < denormal_exp then wrap32 (63 - S + 1 + denormal_exp - exp)
    else wrap32 (63 - S)
  let extrabits : Nat := (extrabitsI % 2 ^ 32).toNat
  let shiftAmt : Nat := ((extrabits + (2 ^ 32 - 1)) % 2 ^ 32) % 64
  let halfway : Int := toI64 (2 ^ shiftAmt % 2 ^ 64)
  let mask : Nat := 2 ^ (extrabits % 64) - 1
  let extra : Int := toI64 ((frac % 2 ^ 64) &&& mask)
  let errorsI : Int := ((count % 2 ^ 32 : Nat) : Int)
  let cmp1 := wrap64 (halfway - errorsI) < extra
  let cmp2 := extra < wrap64 (halfway + errorsI)
  !(cmp1 && cmp2)

-- For f64 the constants are S = 52, EB = 1075; extrabits is 11 above
-- the subnormal threshold, halfway is 1024.
example : is_accurate 52 1075 4 1022 0 = false := by decide
example : is_accurate 52 1075 1 1022 0 = true := by decide
example : is_accurate 52 1075 4 1020 0 = true := by decide

/-- The outcome of `multiply_exponent_extended` in correct.rs: either an
early return carrying the literal extended float and trust flag of the
source, or entry into the main multiply path with the computed small and
large table indices. -/
inductive MulExtBranch
  | ret (frac : Nat) (exp : Int) (trusted : Bool)
  | mainPath (smallIndex largeIndex : Int)
deriving DecidableEq

/-- Embeds the branch structure of `multiply_exponent_extended` from
correct.rs.  `bias`, `step` and `largeLen` stand for the power-table
collaborator fields `powers.bias`, `powers.step` and
`powers.large.len()` (the cached-table module is outside src), passed as
parameters.  The biased exponent is an `i32` addition; the index
divisions are the truncating Rust `/` and `%`; the comparison against
the table length casts the `i32` index to a 64-bit `usize`.  The main
multiply path is represented by its entry (the further multiplications
depend on the table contents). -/
def multiply_exponent_extended (bias step : Int) (largeLen : Nat) (exponent : Int) :
    MulExtBranch :=
  let e := wrap32 (exponent + bias)
  let smallIndex := Int.tmod e step
  let largeIndex := Int.tdiv e step
  if e < 0 then MulExtBranch.ret 0 0 true
  else if largeLen ≤ (largeIndex % 2 ^ 64).toNat then
    MulExtBranch.ret (2 ^ 63) 0x7FF true
  else MulExtBranch.mainPath smallIndex largeIndex

example : multiply_exponent_extended 10 8 5 (-11) = MulExtBranch.ret 0 0 true := by decide
example :
    multiply_exponent_extended 10 8 5 100 = MulExtBranch.ret (2 ^ 63) 2047 true := by decide
example : multiply_exponent_extended 10 8 5 9 = MulExtBranch.mainPath 3 2 := by decide

-- LEMMAS

/-- Wrapping is the identity on the signed 32-bit range. -/
theorem wrap32_eq_self (x : Int) (h1 : -(2 ^ 31) ≤ x) (h2 : x < 2 ^ 31) :
    wrap32 x = x := by
  unfold wrap32
  have h : (x + 2 ^ 31) % 2 ^ 32 = x + 2 ^ 31 :=
    Int.emod_eq_of_lt (by omega) (by omega)
  omega

/-- Wrapping is the identity on the signed 64-bit range. -/
theorem wrap64_eq_self (x : Int) (h1 : -(2 ^ 63) ≤ x) (h2 : x < 2 ^ 63) :
    wrap64 x = x := by
  unfold wrap64
  have h : (x + 2 ^ 63) % 2 ^ 64 = x + 2 ^ 63 :=
    Int.emod_eq_of_lt (by omega) (by omega)
  omega

/-- After the division loop runs to completion, the guard fails on the
result, and a nonzero mantissa stays nonzero. -/
theorem divLoopAux_post (d : Nat) (hd : 2 ≤ d) :
    ∀ fuel m e k, m ≤ fuel →
      (¬(d ≤ (divLoopAux fuel d m e k).1 ∧ (divLoopAux fuel d m e k).1 % d = 0)) ∧
      (m ≠ 0 → (divLoopAux fuel d m e k).1 ≠ 0) := by
  intro fuel
  induction fuel with
  | zero =>
    intro m e k hm
    have hm0 : m = 0 := Nat.le_zero.mp hm
    subst hm0
    simp [divLoopAux]
    omega
  | succ n ih =>
    intro m e k hm
    by_cases h : d ≤ m ∧ m % d = 0
    · have hmpos : 0 < m := lt_of_lt_of_le (by omega) h.1
      have hdiv : m / d < m := Nat.div_lt_self hmpos (by omega)
      have hle : m / d ≤ n := by omega
      have hne : m / d ≠ 0 := by
        have := Nat.div_pos h.1 (by omega)
        omega
      have hrec := ih (m / d) (wrap32 (e + k)) k hle
      simp only [divLoopAux, if_pos h]
      exact ⟨hrec.1, fun _ => hrec.2 hne⟩
    · simp only [divLoopAux, if_neg h]
      exact ⟨h, fun hm0 => hm0⟩

/-- The division loop is the identity when its guard fails at entry. -/
theorem divLoopAux_id (fuel d m : Nat) (e k : Int) (h : ¬(d ≤ m ∧ m % d = 0)) :
    divLoopAux fuel d m e k = (m, e) := by
  cases fuel with
  | zero => rfl
  | succ n => simp only [divLoopAux, if_neg h]

/-- A mantissa with no trailing base factor is a fixed point of the
normalizer. -/
theorem normalize_mantissa_fixed (r base : Nat) (e : Int)
    (hb : 2 ≤ base) (hb36 : base ≤ 36) (hr : r % base ≠ 0) :
    normalize_mantissa r base e = (r, e) := by
  have hsq : base * base ≤ 36 * 36 := Nat.mul_le_mul hb36 hb36
  have hb2 : (base * base) % 2 ^ 64 = base * base :=
    Nat.mod_eq_of_lt (by omega)
  have hb4 : (base * base * (base * base)) % 2 ^ 64 = base * base * (base * base) := by
    have h2 : base * base * (base * base) ≤ 1296 * 1296 := Nat.mul_le_mul hsq hsq
    exact Nat.mod_eq_of_lt (by omega)
  have hnd : ∀ d : Nat, base ∣ d → ¬(d ≤ r ∧ r % d = 0) := by
    intro d hd hco
    obtain ⟨c, hc⟩ := hd.trans (Nat.dvd_of_mod_eq_zero hco.2)
    exact hr (by rw [hc, Nat.mul_mod_right])
  have hd4 : base ∣ base * base * (base * base) := ⟨base * base * base, by ring⟩
  have hd2 : base ∣ base * base := ⟨base, rfl⟩
  simp only [normalize_mantissa, hb2, hb4]
  rw [divLoopAux_id _ _ _ _ _ (hnd _ hd4)]
  rw [divLoopAux_id _ _ _ _ _ (hnd _ hd2)]
  simp only [if_neg hr]

/-- The result of the normalizer on a nonzero mantissa has no trailing
base factor and is nonzero. -/
theorem normalize_mantissa_post (m base : Nat) (e : Int)
    (hm : m ≠ 0) (hb : 2 ≤ base) (hb36 : base ≤ 36) :
    (normalize_mantissa m base e).1 % base ≠ 0 ∧ (normalize_mantissa m base e).1 ≠ 0 := by
  have hsq : base * base ≤ 36 * 36 := Nat.mul_le_mul hb36 hb36
  have hb2 : (base * base) % 2 ^ 64 = base * base :=
    Nat.mod_eq_of_lt (by omega)
  have hb4 : (base * base * (base * base)) % 2 ^ 64 = base * base * (base * base) := by
    have h2 : base * base * (base * base) ≤ 1296 * 1296 := Nat.mul_le_mul hsq hsq
    exact Nat.mod_eq_of_lt (by omega)
  have h2b2 : 2 ≤ base * base := by nlinarith
  have h2b4 : 2 ≤ base * base * (base * base) := by nlinarith
  have hp1 := divLoopAux_post (base * base * (base * base)) h2b4 m m e 4 le_rfl
  obtain ⟨hg1, hn1⟩ := hp1
  have hm1 := hn1 hm
  have hp2 := divLoopAux_post (base * base) h2b2
    (divLoopAux m (base * base * (base * base)) m e 4).1
    (divLoopAux m (base * base * (base * base)) m e 4).1
    (divLoopAux m (base * base * (base * base)) m e 4).2 2 le_rfl
  obtain ⟨hg2, hn2⟩ := hp2
  have hm2 := hn2 hm1
  simp only [normalize_mantissa, hb2, hb4]
  set q := divLoopAux m (base * base * (base * base)) m e 4 with hq
  set p := divLoopAux q.1 (base * base) q.1 q.2 2 with hp
  by_cases hdv : p.1 % base = 0
  · simp only [if_pos hdv]
    have hdvd : base ∣ p.1 := Nat.dvd_of_mod_eq_zero hdv
    obtain ⟨c, hc⟩ := hdvd
    have hcpos : c ≠ 0 := by
      intro h0
      exact hm2 (by rw [hc, h0, Nat.mul_zero])
    have hdiv : p.1 / base = c := by
      rw [hc, Nat.mul_div_cancel_left _ (by omega : 0 < base)]
    constructor
    · rw [hdiv]
      intro hcb
      obtain ⟨t, ht⟩ := Nat.dvd_of_mod_eq_zero hcb
      have hsqdvd : p.1 % (base * base) = 0 := by
        rw [hc, ht]
        have : base * (base * t) = base * base * t := by ring
        rw [this, Nat.mul_mod_right]
      have hge : base * base ≤ p.1 := by
        have : base * base ∣ p.1 := Nat.dvd_of_mod_eq_zero hsqdvd
        exact Nat.le_of_dvd (Nat.pos_of_ne_zero hm2) this
      exact hg2 ⟨hge, hsqdvd⟩
    · rw [hdiv]
      exact hcpos
  · simp only [if_neg hdv]
    exact ⟨hdv, hm2⟩

-- CLAIM THEOREMS

/-- C2 (amended): the exponent combiner returns the literal exponent
minus the dot shift whenever the literal exponent is not a saturating
sentinel and the difference fits the signed 32-bit range; the sentinel
values, i32 maximum and i32 minimum, pass through unchanged regardless
of the dot shift. -/
theorem C2_normalize_exponent (e d : Int) :
    (e = 2147483647 → normalize_exponent e d = 2147483647) ∧
    (e = -2147483648 → normalize_exponent e d = -2147483648) ∧
    (e ≠ 2147483647 → e ≠ -2147483648 →
      -2147483648 ≤ e - d → e - d < 2147483648 →
      normalize_exponent e d = e - d) := by
  refine ⟨?_, ?_, ?_⟩
  · intro h
    simp [normalize_exponent, h]
  · intro h
    subst h
    norm_num [normalize_exponent]
  · intro h1 h2 h3 h4
    unfold normalize_exponent
    rw [if_neg (by exact_mod_cast h1), if_neg (by exact_mod_cast h2)]
    exact wrap32_eq_self _ (by norm_num; omega) (by norm_num; omega)

/-- C2 witness: the three clauses of the amended combiner contract at
concrete inputs. -/
theorem C2_normalize_exponent_witness :
    normalize_exponent 2147483647 7 = 2147483647 ∧
    normalize_exponent (-2147483648) 7 = -2147483648 ∧
    normalize_exponent 10 5 = 5 :=
  ⟨(C2_normalize_exponent 2147483647 7).1 rfl,
   (C2_normalize_exponent (-2147483648) 7).2.1 rfl,
   (C2_normalize_exponent 10 5).2.2 (by decide) (by decide) (by decide) (by decide)⟩

/-- C2 counterexample: for the non-sentinel literal exponent
2147483646 and dot shift -2 the mathematical difference is 2147483648,
but the combiner returns the wrapped value -2147483648, so the claim
that it returns the difference for every non-sentinel input is false. -/
theorem C2_normalize_exponent_cex :
    normalize_exponent 2147483646 (-2) = -2147483648 ∧
    (2147483646 : Int) - (-2) = 2147483648 ∧
    (-2147483648 : Int) ≠ 2147483648 := by
  refine ⟨by decide, by decide, by decide⟩

/-- C3: at literal exponent 2147483645 (not a sentinel) and dot shift
-3 the difference 2147483648 overflows i32; the combiner wraps to the
i32 minimum instead of clamping to the i32 maximum sentinel, so the
code does not saturate as the specification requires. -/
theorem C3_normalize_exponent_wraps :
    normalize_exponent 2147483645 (-3) = -2147483648 ∧
    (-2147483648 : Int) ≠ 2147483647 := by
  refine ⟨by decide, by decide⟩

/-- C4 (amended): the mantissa normalizer is idempotent on every
nonzero mantissa for bases 2 to 36; a second application returns the
first application's result unchanged. -/
theorem C4_normalize_mantissa_idem (m base : Nat) (e : Int)
    (hm : m ≠ 0) (hb : 2 ≤ base) (hb36 : base ≤ 36) :
    normalize_mantissa (normalize_mantissa m base e).1 base (normalize_mantissa m base e).2
      = normalize_mantissa m base e := by
  obtain ⟨hmod, hne⟩ := normalize_mantissa_post m base e hm hb hb36
  rw [normalize_mantissa_fixed _ _ _ hb hb36 hmod]

/-- C4 witness: idempotence at mantissa 100, base 10, exponent 0. -/
theorem C4_normalize_mantissa_idem_witness :
    (100 : Nat) ≠ 0 ∧ (2 : Nat) ≤ 10 ∧ (10 : Nat) ≤ 36 ∧
    normalize_mantissa (normalize_mantissa 100 10 0).1 10 (normalize_mantissa 100 10 0).2
      = normalize_mantissa 100 10 0 :=
  ⟨by decide, by decide, by decide,
   C4_normalize_mantissa_idem 100 10 0 (by decide) (by decide) (by decide)⟩

/-- C4 counterexample: at mantissa 0 the final single base check always
fires, so one application of the normalizer yields (0, 1) from
(0, base 10, exponent 0) while a second application yields (0, 2); the
claim quantified over every u64 mantissa is false at mantissa 0. -/
theorem C4_normalize_mantissa_cex :
    normalize_mantissa 0 10 0 = (0, 1) ∧
    normalize_mantissa (normalize_mantissa 0 10 0).1 10 (normalize_mantissa 0 10 0).2
      = (0, 2) ∧
    ((0, 2) : Nat × Int) ≠ (0, 1) := by
  refine ⟨by decide, by decide, by decide⟩

/-- C5 (amended): for a power-of-two base with log2 equal to `pow2_exp`
and a well-formed exponent limit pair, the power-of-two exact path takes
its exact-zero branch (returning the constant F::ZERO) precisely when
the exponent is strictly below `min_exponent - 65 / pow2_exp`, where the
division is the truncating integer division computed by the code, not
the ceiling the specification states. -/
theorem C5_pow2_zero_iff (m base : Nat) (p e minExp maxExp : Int)
    (hp1 : 1 ≤ p) (hp5 : p ≤ 5) (hmm : minExp ≤ maxExp) :
    (pow2_to_exact m base p e minExp maxExp).1 = Pow2Branch.zero ↔
      e < minExp - 65 / p := by
  have h65 : 13 ≤ 65 / p ∧ 65 / p ≤ 65 := by
    interval_cases p <;> norm_num
  simp only [pow2_to_exact]
  split_ifs with h1 h2 h3 <;> simp <;> omega

/-- C5 witness: the amended threshold at base 4, exponent -200,
limits (-100, 100). -/
theorem C5_pow2_zero_iff_witness :
    ((pow2_to_exact 1 4 2 (-200) (-100) 100).1 = Pow2Branch.zero ↔
      (-200 : Int) < -100 - 65 / 2) :=
  C5_pow2_zero_iff 1 4 2 (-200) (-100) 100 (by decide) (by decide) (by decide)

/-- C5 counterexample: for base 4 the claimed threshold uses
ceil(65/2) = 33, but the code divides truncating, 65 / 2 = 32.  With
exponent limits (-100, 100) and exponent -133 the code takes the
exact-zero branch although -133 is not strictly below -100 - 33, so the
claim as stated is false. -/
theorem C5_pow2_zero_cex :
    (pow2_to_exact 1 4 2 (-133) (-100) 100).1 = Pow2Branch.zero ∧
    ¬((-133 : Int) < -100 - 33) := by
  refine ⟨by decide, by decide⟩

/-- A 64-bit shift right is zero exactly when the value fits below the
shifted power of two. -/
theorem shiftRight_eq_zero_iff (m S : Nat) : m >>> S = 0 ↔ m < 2 ^ S := by
  rw [Nat.shiftRight_eq_div_pow]
  constructor
  · intro h
    by_contra hge
    push_neg at hge
    have h1 := (Nat.one_le_div_iff (Nat.pos_pow_of_pos S (by omega))).mpr hge
    omega
  · exact Nat.div_eq_of_lt

/-- C6: the general exact path reports its result exact precisely when
the mantissa fits the target significand width `S` (its bit length does
not exceed `S`, that is the mantissa is below `2 ^ S`) and the exponent
is zero or lies within the exact range `[minExp, maxExp]`; in every
other case the validity flag is false. -/
theorem C6_to_exact_iff (m S : Nat) (minExp maxExp e : Int) :
    (to_exact m S minExp maxExp e).2 = true ↔
      (m < 2 ^ S ∧ (e = 0 ∨ (minExp ≤ e ∧ e ≤ maxExp))) := by
  simp only [to_exact]
  split_ifs with h1 h2 h3
  · simp only [Bool.false_eq_true, false_iff]
    intro hco
    exact h1 ((shiftRight_eq_zero_iff m S).mpr hco.1)
  · push_neg at h1
    simp only [true_iff]
    exact ⟨(shiftRight_eq_zero_iff m S).mp h1, Or.inl h2⟩
  · push_neg at h1
    simp only [true_iff]
    exact ⟨(shiftRight_eq_zero_iff m S).mp h1, Or.inr h3⟩
  · simp only [Bool.false_eq_true, false_iff]
    intro hco
    rcases hco.2 with h | h
    · exact h2 h
    · exact h3 h

/-- C10: the power-of-two exact path reports its result as exact in
every branch - infinity, zero, two-step scaled and direct - for every
mantissa, base, pow2 exponent, exponent and limit pair; hence the
dispatcher in to_native, which returns whenever this flag is true,
never falls through from the power-of-two path to the
extended-precision path. -/
theorem C10_pow2_always_valid (m base : Nat) (p e minExp maxExp : Int) :
    (pow2_to_exact m base p e minExp maxExp).2 = true := by
  simp only [pow2_to_exact]
  split_ifs <;> rfl

/-- C1: the general exact path declines the mantissa 4746067219335938
(53 bits, above the 52-bit f64 significand) of the failing input
268A6.177777778 in base 15, for every exponent limit pair; together
with the repository's own test asserting that the extended path also
declines this input, control reaches the unimplemented bignum path and
the conversion aborts instead of returning a value. -/
theorem C1_exact_declines (minExp maxExp : Int) :
    (to_exact 4746067219335938 52 minExp maxExp (-9)).2 = false := by
  simp only [to_exact]
  rw [if_pos (by decide)]

/-- C8: with the power-table fields bias, step and populated large-table
length as parameters, the extended multiply returns the zero extended
float marked trusted whenever the biased exponent is negative, and the
infinity extended float (fraction bit 63 set, exponent 0x7FF) marked
trusted whenever the large-table index reaches the populated length;
neither case reaches the main multiply path. -/
theorem C8_multiply_extended_branches (bias step : Int) (largeLen : Nat) (exponent : Int)
    (hstep : 0 < step)
    (hlo : -(2 ^ 31) ≤ exponent + bias) (hhi : exponent + bias < 2 ^ 31) :
    (exponent + bias < 0 →
      multiply_exponent_extended bias step largeLen exponent = MulExtBranch.ret 0 0 true) ∧
    (0 ≤ exponent + bias → largeLen ≤ ((exponent + bias) / step).toNat →
      multiply_exponent_extended bias step largeLen exponent =
        MulExtBranch.ret (2 ^ 63) 2047 true) := by
  have hw : wrap32 (exponent + bias) = exponent + bias := wrap32_eq_self _ hlo hhi
  constructor
  · intro hneg
    simp only [multiply_exponent_extended, hw]
    rw [if_pos hneg]
  · intro hpos hlen
    have htd : Int.tdiv (exponent + bias) step = (exponent + bias) / step := by
      rw [Int.tdiv_eq_ediv hpos (by omega)]
    have hq0 : 0 ≤ (exponent + bias) / step := Int.ediv_nonneg hpos (by omega)
    have hqlt : (exponent + bias) / step < 2 ^ 64 := by
      have := Int.ediv_le_self step hpos
      omega
    have hmod : (exponent + bias) / step % 2 ^ 64 = (exponent + bias) / step :=
      Int.emod_eq_of_lt hq0 hqlt
    simp only [multiply_exponent_extended, hw, htd, hmod]
    rw [if_neg (by omega), if_pos hlen]

/-- C8 witness: both trusted early returns at concrete table data
(bias 10, step 8, five large entries). -/
theorem C8_multiply_extended_branches_witness :
    multiply_exponent_extended 10 8 5 (-11) = MulExtBranch.ret 0 0 true ∧
    multiply_exponent_extended 10 8 5 100 = MulExtBranch.ret (2 ^ 63) 2047 true :=
  ⟨(C8_multiply_extended_branches 10 8 5 (-11) (by decide) (by decide) (by decide)).1
      (by decide),
   (C8_multiply_extended_branches 10 8 5 100 (by decide) (by decide) (by decide)).2
      (by decide) (by decide)⟩

/-- C9: the mantissa parse in radix 10 of the byte string 1.2345 yields
mantissa 12345, dot shift 4, 6 bytes consumed and no truncation, and of
the byte string of 1 followed by twenty zeros yields mantissa
10^19, dot shift -1, 21 bytes consumed and the truncation flag set. -/
theorem C9_parse_mantissa_cases :
    parse_mantissa 10 [49, 46, 50, 51, 52, 53] = (12345, 4, 6, false) ∧
    parse_mantissa 10 (49 :: List.replicate 20 48) =
      (10000000000000000000, -1, 21, true) := by
  refine ⟨by decide, by decide⟩

/-- C7: in the regime of the extended path (significand size at most
62, nonnegative exponent bias, u32 error count, u64 fraction, and
extrabits within the 64-bit fraction), the ambiguity test declares the
result untrustworthy precisely when
halfway - errors < extra < halfway + errors, with
halfway = 2 ^ (extrabits - 1), extra the low extrabits bits of the
fraction, errors the accumulated count, and extrabits the number of
unrepresentable low fraction bits, enlarged below the subnormal
threshold. -/
theorem C7_is_accurate_iff (S EB : Int) (count frac : Nat) (exp : Int)
    (hS1 : 1 ≤ S) (hS2 : S ≤ 62) (hEB1 : 0 ≤ EB) (hEB2 : EB ≤ 2 ^ 20)
    (hc : count < 2 ^ 32) (hf : frac < 2 ^ 64)
    (heb : extrabitsSpec S EB exp ≤ 63) :
    is_accurate S EB count frac exp = false ↔
      ((2 : Int) ^ ((extrabitsSpec S EB exp).toNat - 1) - count <
        ((frac % 2 ^ (extrabitsSpec S EB exp).toNat : Nat) : Int) ∧
       ((frac % 2 ^ (extrabitsSpec S EB exp).toNat : Nat) : Int) <
        2 ^ ((extrabitsSpec S EB exp).toNat - 1) + count) := by
  have heb1 : 1 ≤ extrabitsSpec S EB exp := by
    unfold extrabitsSpec
    split_ifs <;> omega
  have hw1 : wrap32 (-(EB - S)) = -(EB - S) :=
    wrap32_eq_self _ (by omega) (by omega)
  have hw2 : wrap32 (-(EB - S) - 63) = -(EB - S) - 63 :=
    wrap32_eq_self _ (by omega) (by omega)
  have hext : (if exp < -(EB - S) - 63 then wrap32 (63 - S + 1 + (-(EB - S) - 63) - exp)
      else wrap32 (63 - S)) = extrabitsSpec S EB exp := by
    unfold extrabitsSpec
    split_ifs with h
    · have hv : extrabitsSpec S EB exp = 63 - S + 1 + (-(EB - S) - 63) - exp := by
        unfold extrabitsSpec
        rw [if_pos h]
      exact wrap32_eq_self _ (by omega) (by omega)
    · exact wrap32_eq_self _ (by omega) (by omega)
  simp only [is_accurate, hw1, hw2, hext]
  have hemod : extrabitsSpec S EB exp % 2 ^ 32 = extrabitsSpec S EB exp :=
    Int.emod_eq_of_lt (by omega) (by omega)
  rw [hemod]
  have hn1 : 1 ≤ (extrabitsSpec S EB exp).toNat := by omega
  have hn63 : (extrabitsSpec S EB exp).toNat ≤ 63 := by omega
  set n := (extrabitsSpec S EB exp).toNat with hndef
  have hsh1 : (n + (2 ^ 32 - 1)) % 2 ^ 32 = n - 1 := by omega
  have hsh2 : (n - 1) % 64 = n - 1 := by omega
  have hn64 : n % 64 = n := by omega
  rw [hsh1, hsh2, hn64]
  have hp62 : (2 : Nat) ^ (n - 1) ≤ 2 ^ 62 :=
    Nat.pow_le_pow_right (by omega) (by omega)
  have hpmod : (2 : Nat) ^ (n - 1) % 2 ^ 64 = 2 ^ (n - 1) :=
    Nat.mod_eq_of_lt (by omega)
  rw [hpmod]
  have hhw : toI64 (2 ^ (n - 1)) = ((2 : Nat) ^ (n - 1) : Int) := by
    unfold toI64
    rw [if_pos (by omega)]
    push_cast
    ring
  rw [hhw]
  have hfm : frac % 2 ^ 64 = frac := Nat.mod_eq_of_lt hf
  rw [hfm]
  rw [Nat.and_pow_two_sub_one_eq_mod frac n]
  have hfrltn : frac % 2 ^ n < 2 ^ n := Nat.mod_lt _ (by positivity)
  have hpn63 : (2 : Nat) ^ n ≤ 2 ^ 63 :=
    Nat.pow_le_pow_right (by omega) (by omega)
  have hex : toI64 (frac % 2 ^ n) = ((frac % 2 ^ n : Nat) : Int) := by
    unfold toI64
    rw [if_pos (by omega)]
  rw [hex]
  have hcm : count % 2 ^ 32 = count := Nat.mod_eq_of_lt hc
  rw [hcm]
  have hpint : ((2 : Nat) ^ (n - 1) : Int) ≤ 2 ^ 62 := by
    exact_mod_cast hp62
  have hww1 : wrap64 (((2 : Nat) ^ (n - 1) : Int) - count) =
      ((2 : Nat) ^ (n - 1) : Int) - count := by
    apply wrap64_eq_self
    · have : (0 : Int) < ((2 : Nat) ^ (n - 1) : Int) := by positivity
      omega
    · omega
  have hww2 : wrap64 (((2 : Nat) ^ (n - 1) : Int) + count) =
      ((2 : Nat) ^ (n - 1) : Int) + count := by
    apply wrap64_eq_self
    · have : (0 : Int) < ((2 : Nat) ^ (n - 1) : Int) := by positivity
      omega
    · omega
  rw [hww1, hww2]
  push_cast
  simp

/-- C7 witness: for the f64 constants S = 52, EB = 1075 at binary
exponent 0 the extrabits count is 11 and halfway is 1024; with error
count 4 and fraction low bits 1022 the estimate is declared
untrustworthy. -/
theorem C7_is_accurate_iff_witness : is_accurate 52 1075 4 1022 0 = false :=
  (C7_is_accurate_iff 52 1075 4 1022 0 (by decide) (by decide) (by decide) (by decide)
      (by decide) (by decide) (by decide)).mpr (by decide)

end Lexical
